import Mathlib

/-
  Verification development for the preview synchronization core
  (src/packages/common/src/components/Preview/index.tsx).

  JavaScript objects used as string-keyed dictionaries (`IModulesByPath`)
  are embedded as association lists `List (String × ModuleEntry)` in key
  insertion order; a JS object never holds two entries for the same key,
  which appears as `(keys s).Nodup` hypotheses where a theorem needs it.
  Property lookup `obj[p]` is `find`, and the redundant `path` field that
  the source stores inside each entry (always equal to the entry's key)
  is dropped from the entry shape.
-/

namespace Preview

/-- Value shape of one `IModulesByPath` entry: `code: null | string` and the
optional `isBinary?: boolean` flag (`none` = the JS field is absent). -/
structure ModuleEntry where
  code : Option String
  isBinary : Option Bool
deriving DecidableEq

/-- A JS object mapping absolute paths to module entries, in key insertion
order. -/
abbrev IModulesByPath := List (String × ModuleEntry)

/-- Property lookup `s[p]` on a JS object: the first entry with key `p`. -/
def find : IModulesByPath → String → Option ModuleEntry
  | [], _ => none
  | pe :: t, p => if pe.1 = p then some pe.2 else find t p

/-- `Object.keys s` in insertion order. -/
def keys (s : IModulesByPath) : List String := s.map Prod.fst

/-- Embedding of `getDiff(a, b)` (source lines 84-117): keys of `b` are
filtered to those absent from `a` or whose `code` differs, and emitted with
`b`'s code and binary flag; every key of `a` absent from `b` is appended as
a tombstone `{code: null}`. -/
def getDiff (a b : IModulesByPath) : IModulesByPath :=
  let changed := b.filter fun pe =>
    match find a pe.1 with
    | some ea => decide (ea.code ≠ pe.2.code)
    | none => true
  let part1 := changed.map fun pe => (pe.1, ModuleEntry.mk pe.2.code pe.2.isBinary)
  let removed := a.filter fun pe => (find b pe.1).isNone
  let part2 := removed.map fun pe => (pe.1, ModuleEntry.mk none none)
  part1 ++ part2

/-! Basic lookup lemmas for the association-list object model. -/

theorem find_eq_none_of_not_mem_keys {l : IModulesByPath} {p : String}
    (h : p ∉ keys l) : find l p = none := by
  induction l with
  | nil => rfl
  | cons pe t ih =>
    simp only [keys, List.map_cons, List.mem_cons, not_or] at h
    have hne : pe.1 ≠ p := fun he => h.1 he.symm
    simp only [find, if_neg hne]
    exact ih h.2

theorem mem_keys_of_find_eq_some {l : IModulesByPath} {p : String} {e : ModuleEntry}
    (h : find l p = some e) : p ∈ keys l := by
  by_contra hmem
  rw [find_eq_none_of_not_mem_keys hmem] at h
  exact Option.noConfusion h

theorem find_append (l₁ l₂ : IModulesByPath) (p : String) :
    find (l₁ ++ l₂) p = match find l₁ p with
      | some e => some e
      | none => find l₂ p := by
  induction l₁ with
  | nil => rfl
  | cons pe t ih =>
    by_cases h : pe.1 = p
    · simp [find, h]
    · simp [find, h, ih]

theorem find_map_entry (l : IModulesByPath) (v : String → ModuleEntry → ModuleEntry)
    (p : String) :
    find (l.map fun pe => (pe.1, v pe.1 pe.2)) p = (find l p).map (v p) := by
  induction l with
  | nil => rfl
  | cons pe t ih =>
    by_cases h : pe.1 = p
    · subst h; simp [find]
    · simp [find, h, ih]

theorem mem_keys_filter {q : String × ModuleEntry → Bool} {l : IModulesByPath}
    {p : String} (h : p ∈ keys (l.filter q)) : p ∈ keys l := by
  simp only [keys, List.mem_map] at h ⊢
  obtain ⟨pe, hpe, rfl⟩ := h
  exact ⟨pe, (List.mem_filter.mp hpe).1, rfl⟩

theorem find_filter_of_true {q : String × ModuleEntry → Bool} {l : IModulesByPath}
    {p : String} (h : ∀ e, q (p, e) = true) :
    find (l.filter q) p = find l p := by
  induction l with
  | nil => rfl
  | cons pe t ih =>
    by_cases hk : pe.1 = p
    · subst hk
      have hq : q pe = true := h pe.2
      simp [List.filter_cons, hq, find]
    · by_cases hq : q pe
      · simp [List.filter_cons, hq, find, hk, ih]
      · simp [List.filter_cons, hq, find, hk, ih]

theorem find_of_mem_nodup {l : IModulesByPath} {pe : String × ModuleEntry}
    (hl : (keys l).Nodup) (hm : pe ∈ l) : find l pe.1 = some pe.2 := by
  induction l with
  | nil => cases hm
  | cons qe t ih =>
    simp only [keys, List.map_cons, List.nodup_cons] at hl
    rcases List.mem_cons.mp hm with h | h
    · subst h; simp [find]
    · have hne : qe.1 ≠ pe.1 := by
        intro he
        apply hl.1
        rw [he]
        exact List.mem_map_of_mem Prod.fst h
      simp only [find, if_neg hne]
      exact ih (by simpa [keys] using hl.2) h

theorem find_filter_nodup {q : String × ModuleEntry → Bool} {l : IModulesByPath}
    (hl : (keys l).Nodup) (p : String) :
    find (l.filter q) p = match find l p with
      | some e => if q (p, e) then some e else none
      | none => none := by
  induction l with
  | nil => rfl
  | cons pe t ih =>
    simp only [keys, List.map_cons, List.nodup_cons] at hl
    have ht := ih (by simpa [keys] using hl.2)
    by_cases hk : pe.1 = p
    · subst hk
      by_cases hq : q pe
      · simp [List.filter_cons, hq, find]
      · have hntf : find (t.filter q) pe.1 = none := by
          apply find_eq_none_of_not_mem_keys
          intro hmem
          exact hl.1 (by simpa [keys] using mem_keys_filter hmem)
        simp [List.filter_cons, hq, find, hntf]
    · by_cases hq : q pe
      · simp [List.filter_cons, hq, find, hk, ht]
      · simp [List.filter_cons, hq, find, hk, ht]

theorem find_diff_part1 (a b : IModulesByPath) (p : String) :
    find ((b.filter fun pe => match find a pe.1 with
        | some ea => decide (ea.code ≠ pe.2.code)
        | none => true).map fun pe => (pe.1, ModuleEntry.mk pe.2.code pe.2.isBinary)) p
    = (find (b.filter fun pe => match find a pe.1 with
        | some ea => decide (ea.code ≠ pe.2.code)
        | none => true) p).map fun e => ModuleEntry.mk e.code e.isBinary :=
  find_map_entry _ (fun _ e => ModuleEntry.mk e.code e.isBinary) p

theorem find_diff_part2 (a b : IModulesByPath) (p : String) :
    find ((a.filter fun pe => (find b pe.1).isNone).map
        fun pe => (pe.1, ModuleEntry.mk none none)) p
    = (find (a.filter fun pe => (find b pe.1).isNone) p).map
        fun _ => ModuleEntry.mk none none :=
  find_map_entry _ (fun _ _ => ModuleEntry.mk none none) p

/-- Pointwise description of `getDiff`, assuming well-formed (duplicate-free)
JS objects on both sides. -/
theorem find_getDiff (a b : IModulesByPath) (ha : (keys a).Nodup)
    (hb : (keys b).Nodup) (p : String) :
    find (getDiff a b) p =
      match find b p, find a p with
      | some eb, some ea =>
          if ea.code = eb.code then none
          else some (ModuleEntry.mk eb.code eb.isBinary)
      | some eb, none => some (ModuleEntry.mk eb.code eb.isBinary)
      | none, some _ => some (ModuleEntry.mk none none)
      | none, none => none := by
  simp only [getDiff]
  rw [find_append, find_diff_part1 a b p, find_diff_part2 a b p,
    find_filter_nodup hb, find_filter_nodup ha]
  cases hfb : find b p with
  | none =>
    cases hfa : find a p with
    | none => simp
    | some ea => simp [hfa, hfb]
  | some eb =>
    cases hfa : find a p with
    | none => simp [hfa]
    | some ea =>
      by_cases hc : ea.code = eb.code
      · simp [hfa, hfb, hc]
      · simp [hfa, hfb, hc]

/-- Concrete snapshot from the spec's first diff scenario, side A. -/
def snapA : IModulesByPath := [("/a.js", ModuleEntry.mk (some "1") (some false))]

/-- Concrete snapshot from the spec's first diff scenario, side B. -/
def snapB : IModulesByPath :=
  [("/a.js", ModuleEntry.mk (some "2") (some false)),
   ("/b.js", ModuleEntry.mk (some "x") (some false))]

/-- C1: for well-formed snapshots, `getDiff(previous, next)` contains exactly
the paths of `next` that are absent from `previous` or whose `code` differs by
value (carrying `next`'s code and binary flag; an `isBinary`-only change with
equal code is not included), plus a `{code: null}` tombstone for every path of
`previous` absent from `next`; no other path has an entry. -/
theorem getDiff_membership_spec (a b : IModulesByPath) (ha : (keys a).Nodup)
    (hb : (keys b).Nodup) (p : String) (e : ModuleEntry) :
    find (getDiff a b) p = some e ↔
      ((∃ eb, find b p = some eb ∧
          (find a p = none ∨ ∃ ea, find a p = some ea ∧ ea.code ≠ eb.code) ∧
          e = ModuleEntry.mk eb.code eb.isBinary)
       ∨ (find b p = none ∧ (∃ ea, find a p = some ea) ∧
          e = ModuleEntry.mk none none)) := by
  rw [find_getDiff a b ha hb p]
  cases hfb : find b p with
  | none =>
    cases hfa : find a p with
    | none => simp
    | some ea => simp [eq_comm]
  | some eb =>
    cases hfa : find a p with
    | none => simp [eq_comm]
    | some ea =>
      by_cases hc : ea.code = eb.code
      · simp [hc]
      · simp [hc, eq_comm]

/-- Witness instantiating C1 on the spec's scenario snapshots. -/
theorem getDiff_membership_spec_witness :
    ((keys snapA).Nodup ∧ (keys snapB).Nodup) ∧
      find (getDiff snapA snapB) "/a.js" =
        some (ModuleEntry.mk (some "2") (some false)) := by
  refine ⟨⟨by decide, by decide⟩, ?_⟩
  exact (getDiff_membership_spec snapA snapB (by decide) (by decide) "/a.js"
      (ModuleEntry.mk (some "2") (some false))).mpr
    (Or.inl ⟨ModuleEntry.mk (some "2") (some false), by decide,
      Or.inr ⟨ModuleEntry.mk (some "1") (some false), by decide, by decide⟩, rfl⟩)

/-- C3: for a well-formed snapshot A, `getDiff(A, A)` is the empty mapping,
and for every snapshot B, `getDiff({}, B)` equals B in its entirety. -/
theorem getDiff_self_empty_and_full_sync :
    (∀ a : IModulesByPath, (keys a).Nodup → getDiff a a = [])
      ∧ (∀ b : IModulesByPath, getDiff ([] : IModulesByPath) b = b) := by
  constructor
  · intro a ha
    simp only [getDiff]
    have h1 : (a.filter fun pe => match find a pe.1 with
        | some ea => decide (ea.code ≠ pe.2.code)
        | none => true) = [] := by
      rw [List.filter_eq_nil_iff]
      intro pe hm
      rw [find_of_mem_nodup ha hm]
      simp
    have h2 : (a.filter fun pe => (find a pe.1).isNone) = [] := by
      rw [List.filter_eq_nil_iff]
      intro pe hm
      rw [find_of_mem_nodup ha hm]
      simp
    rw [h1, h2]
    rfl
  · intro b
    simp only [getDiff]
    have h1 : (b.filter fun pe => match find ([] : IModulesByPath) pe.1 with
        | some ea => decide (ea.code ≠ pe.2.code)
        | none => true) = b := by
      rw [List.filter_eq_self]
      intro pe _
      rfl
    rw [h1]
    have h2 : (b.map fun pe => (pe.1, ModuleEntry.mk pe.2.code pe.2.isBinary)) = b := by
      rw [show (fun pe : String × ModuleEntry =>
          (pe.1, ModuleEntry.mk pe.2.code pe.2.isBinary)) = id from funext fun pe => rfl,
        List.map_id]
    rw [h2]
    simp

/-- Witness instantiating C3's first conjunct on a concrete snapshot. -/
theorem getDiff_self_empty_witness :
    (keys snapA).Nodup ∧ getDiff snapA snapA = [] :=
  ⟨by decide, getDiff_self_empty_and_full_sync.1 snapA (by decide)⟩

/-- JS property assignment `s[p] = e`: overwrite in place when the key exists,
append otherwise. -/
def objSet (s : IModulesByPath) (p : String) (e : ModuleEntry) : IModulesByPath :=
  if (find s p).isSome then s.map fun pe => if pe.1 = p then (p, e) else pe
  else s ++ [(p, e)]

/-- Removal of the key `p` from a JS object. -/
def objDelete (s : IModulesByPath) (p : String) : IModulesByPath :=
  s.filter fun pe => decide (pe.1 ≠ p)

/-- Patch application as worded by claim C2 (not present in the source):
every diff entry with `code = null` deletes its path, every other diff entry
is upserted. -/
def specPatch (a diff : IModulesByPath) : IModulesByPath :=
  diff.foldl
    (fun acc pe => if pe.2.code = none then objDelete acc pe.1 else objSet acc pe.1 pe.2) a

/-- Restriction of a snapshot to its non-deleted entries (non-null code), as
worded by claim C2. -/
def nonDeletedEntries (s : IModulesByPath) : IModulesByPath :=
  s.filter fun pe => pe.2.code.isSome

/-- Effective code content of a snapshot at a path: `none` when the path is
absent or its code is null. -/
def effectiveCode (s : IModulesByPath) (p : String) : Option String :=
  (find s p).bind ModuleEntry.code

theorem find_map_overwrite (l : IModulesByPath) (p : String) (e : ModuleEntry) :
    find (l.map fun pe => if pe.1 = p then (p, e) else pe) p
      = (find l p).map fun _ => e := by
  induction l with
  | nil => rfl
  | cons qe t ih =>
    by_cases h : qe.1 = p
    · simp [find, h]
    · simp [find, h, ih]

theorem find_map_overwrite_ne (l : IModulesByPath) (p q : String) (e : ModuleEntry)
    (hne : q ≠ p) :
    find (l.map fun pe => if pe.1 = p then (p, e) else pe) q = find l q := by
  induction l with
  | nil => rfl
  | cons qe t ih =>
    by_cases h : qe.1 = p
    · simp [find, h, Ne.symm hne, ih]
    · simp [find, h, ih]

theorem find_objSet_self (s : IModulesByPath) (p : String) (e : ModuleEntry) :
    find (objSet s p e) p = some e := by
  unfold objSet
  by_cases h : (find s p).isSome
  · rw [if_pos h, find_map_overwrite]
    obtain ⟨x, hx⟩ := Option.isSome_iff_exists.mp h
    rw [hx]
    rfl
  · rw [if_neg h, find_append]
    rw [Option.not_isSome_iff_eq_none] at h
    rw [h]
    simp [find]

theorem find_objSet_ne (s : IModulesByPath) (p q : String) (e : ModuleEntry)
    (hne : q ≠ p) : find (objSet s p e) q = find s q := by
  unfold objSet
  by_cases h : (find s p).isSome
  · rw [if_pos h, find_map_overwrite_ne _ _ _ _ hne]
  · rw [if_neg h, find_append]
    cases hq : find s q with
    | some x => rfl
    | none => simp [find, Ne.symm hne]

theorem find_objDelete_self (s : IModulesByPath) (p : String) :
    find (objDelete s p) p = none := by
  apply find_eq_none_of_not_mem_keys
  intro h
  simp only [objDelete, keys, List.mem_map] at h
  obtain ⟨pe, hpe, hk⟩ := h
  exact absurd hk (by simpa using (List.mem_filter.mp hpe).2)

theorem find_objDelete_ne (s : IModulesByPath) (p q : String) (hne : q ≠ p) :
    find (objDelete s p) q = find s q :=
  find_filter_of_true fun _ => by simp [hne]

theorem find_specPatch : ∀ d : IModulesByPath, (keys d).Nodup →
    ∀ (a : IModulesByPath) (p : String),
      find (specPatch a d) p = match find d p with
        | some e => if e.code = none then none else some e
        | none => find a p := by
  intro d
  induction d with
  | nil => intro _ a p; rfl
  | cons pe t ih =>
    intro hd a p
    simp only [keys, List.map_cons, List.nodup_cons] at hd
    have hstep : specPatch a (pe :: t)
        = specPatch (if pe.2.code = none then objDelete a pe.1
            else objSet a pe.1 pe.2) t := rfl
    rw [hstep, ih (by simpa [keys] using hd.2)]
    by_cases hk : pe.1 = p
    · subst hk
      have hnt : find t pe.1 = none :=
        find_eq_none_of_not_mem_keys (by simpa [keys] using hd.1)
      rw [hnt]
      by_cases hc : pe.2.code = none
      · rw [if_pos hc, find_objDelete_self]
        simp [find, hc]
      · rw [if_neg hc, find_objSet_self]
        simp [find, hc]
    · have hside : find (if pe.2.code = none then objDelete a pe.1
          else objSet a pe.1 pe.2) p = find a p := by
        by_cases hc : pe.2.code = none
        · rw [if_pos hc, find_objDelete_ne _ _ _ (fun h => hk h.symm)]
        · rw [if_neg hc, find_objSet_ne _ _ _ _ (fun h => hk h.symm)]
      rw [hside]
      simp [find, hk]

theorem find_isSome_of_mem_keys {l : IModulesByPath} {p : String}
    (h : p ∈ keys l) : (find l p).isSome := by
  induction l with
  | nil => simp [keys] at h
  | cons pe t ih =>
    simp only [keys, List.map_cons, List.mem_cons] at h
    by_cases hk : pe.1 = p
    · simp [find, hk]
    · simp only [find, if_neg hk]
      apply ih
      rcases h with h | h
      · exact absurd h.symm hk
      · simpa [keys] using h

theorem keys_map_entry (l : IModulesByPath) (f : String × ModuleEntry → ModuleEntry) :
    keys (l.map fun pe => (pe.1, f pe)) = keys l := by
  induction l with
  | nil => rfl
  | cons pe t _ => simp [keys]

theorem keys_append (l₁ l₂ : IModulesByPath) :
    keys (l₁ ++ l₂) = keys l₁ ++ keys l₂ :=
  List.map_append _ _ _

theorem getDiff_keys_nodup (a b : IModulesByPath) (ha : (keys a).Nodup)
    (hb : (keys b).Nodup) : (keys (getDiff a b)).Nodup := by
  have h1 : keys ((b.filter fun pe => match find a pe.1 with
        | some ea => decide (ea.code ≠ pe.2.code)
        | none => true).map fun pe => (pe.1, ModuleEntry.mk pe.2.code pe.2.isBinary))
      = keys (b.filter fun pe => match find a pe.1 with
        | some ea => decide (ea.code ≠ pe.2.code)
        | none => true) := keys_map_entry _ _
  have h2 : keys ((a.filter fun pe => (find b pe.1).isNone).map
        fun pe => (pe.1, ModuleEntry.mk none none))
      = keys (a.filter fun pe => (find b pe.1).isNone) :=
    keys_map_entry _ _
  simp only [getDiff]
  rw [keys_append, h1, h2]
  apply List.Nodup.append
  · exact List.Nodup.sublist (List.Sublist.map _ (List.filter_sublist _)) hb
  · exact List.Nodup.sublist (List.Sublist.map _ (List.filter_sublist _)) ha
  · rw [List.disjoint_left]
    intro x hx1 hx2
    simp only [keys, List.mem_map, List.mem_filter] at hx1 hx2
    obtain ⟨pe1, ⟨hm1, _⟩, hk1⟩ := hx1
    obtain ⟨pe2, ⟨hm2, hq2⟩, hk2⟩ := hx2
    have hsome : (find b x).isSome := by
      apply find_isSome_of_mem_keys
      rw [← hk1]
      exact List.mem_map_of_mem Prod.fst hm1
    rw [hk2] at hq2
    simp only [Option.isNone_iff_eq_none] at hq2
    rw [hq2] at hsome
    cases hsome

/-- Concrete snapshots refuting C2: equal code, different binary flags. -/
def cexA : IModulesByPath := [("/a.js", ModuleEntry.mk (some "1") (some false))]

/-- Concrete snapshots refuting C2: equal code, different binary flags. -/
def cexB : IModulesByPath := [("/a.js", ModuleEntry.mk (some "1") (some true))]

/-- Counterexample to C2 as stated: with A = {"/a.js": {code "1", text}} and
B = {"/a.js": {code "1", binary}} the diff is empty (only `code` gates
inclusion), so patching A returns A, whose entry differs from B's entry in
its `isBinary` flag. -/
theorem specPatch_not_exact_counterexample :
    ((keys cexA).Nodup ∧ (keys cexB).Nodup) ∧
      find (specPatch cexA (getDiff cexA cexB)) "/a.js"
        ≠ find (nonDeletedEntries cexB) "/a.js" := by decide

/-- C2 (amended): applying `getDiff(A, B)` to A as a patch reconstructs B's
effective code content at every path (absent and null-code paths coincide);
the resulting entries need not equal B's, since an entry whose code is
unchanged keeps A's `isBinary` flag, and a null-code entry present in both A
and B survives in the patched snapshot. -/
theorem specPatch_getDiff_reconstructs_code (a b : IModulesByPath)
    (ha : (keys a).Nodup) (hb : (keys b).Nodup) (p : String) :
    effectiveCode (specPatch a (getDiff a b)) p = effectiveCode b p := by
  unfold effectiveCode
  rw [find_specPatch (getDiff a b) (getDiff_keys_nodup a b ha hb) a p,
    find_getDiff a b ha hb p]
  cases hfb : find b p with
  | none =>
    cases hfa : find a p with
    | none => simp
    | some ea => simp
  | some eb =>
    cases hfa : find a p with
    | none =>
      cases hc : eb.code with
      | none => simp [hc]
      | some c => simp [hc]
    | some ea =>
      by_cases hc : ea.code = eb.code
      · simp [hc]
      · cases hcb : eb.code with
        | none =>
          rw [hcb] at hc
          simp [hc, hcb]
        | some c =>
          rw [hcb] at hc
          simp [hc, hcb]

/-- Witness instantiating the amended C2 on the spec's scenario snapshots. -/
theorem specPatch_getDiff_reconstructs_code_witness :
    ((keys snapA).Nodup ∧ (keys snapB).Nodup) ∧
      effectiveCode (specPatch snapA (getDiff snapA snapB)) "/b.js"
        = effectiveCode snapB "/b.js" :=
  ⟨⟨by decide, by decide⟩,
    specPatch_getDiff_reconstructs_code snapA snapB (by decide) (by decide) "/b.js"⟩

/-! Navigation history state machine (`commitUrl`, `handleRefresh`). -/

/-- Navigation-relevant part of the component state: `history`,
`historyPosition` (a JS number, possibly out of range after POP) and
`urlInAddressBar`. -/
structure NavState where
  history : List String
  historyPosition : Int
  urlInAddressBar : String
deriving DecidableEq

/-- Index normalization used by `Array.prototype.slice`: negative indices
count from the end (clamped at 0), others are clamped at the length. -/
def jsSliceIndex (len : Nat) (i : Int) : Nat :=
  if i < 0 then ((len : Int) + i).toNat else min i.toNat len

/-- JS `arr.slice(a, b)`. -/
def jsSlice (l : List String) (a b : Int) : List String :=
  (l.take (jsSliceIndex l.length b)).drop (jsSliceIndex l.length a)

/-- JS `arr.slice(a)` (to the end). -/
def jsSliceFrom (l : List String) (a : Int) : List String :=
  l.drop (jsSliceIndex l.length a)

/-- JS `arr[i]`: `none` plays the role of `undefined`. -/
def jsGetElem (l : List String) (i : Int) : Option String :=
  if i < 0 then none else l[i.toNat]?

/-- Embedding of `commitUrl(url, action, diff)` (source lines 730-760):
POP moves the position by `diff` and stores `url` in the address bar;
REPLACE rewrites the slot at the current position; every other action
(the PUSH default) truncates after the position and appends. -/
def commitUrl (s : NavState) (url : String) (action : String) (diff : Int) :
    NavState :=
  if action = "POP" then
    { s with historyPosition := s.historyPosition + diff, urlInAddressBar := url }
  else if action = "REPLACE" then
    { s with
        history := jsSlice s.history 0 s.historyPosition ++ [url]
          ++ jsSliceFrom s.history (s.historyPosition + 1),
        urlInAddressBar := url }
  else
    { history := jsSlice s.history 0 (s.historyPosition + 1) ++ [url],
      historyPosition := s.historyPosition + 1,
      urlInAddressBar := url }

/-- Url chosen by `handleRefresh`: `history[historyPosition] || urlInAddressBar`
(JS falsy fallback: `undefined` or the empty string). -/
def refreshUrl (s : NavState) : String :=
  match jsGetElem s.history s.historyPosition with
  | some u => if u = "" then s.urlInAddressBar else u
  | none => s.urlInAddressBar

/-- Committed state update of `handleRefresh` (source lines 698-716): a
single-entry history at position 0. -/
def handleRefresh (s : NavState) : NavState :=
  { history := [refreshUrl s], historyPosition := 0,
    urlInAddressBar := refreshUrl s }

/-- Navigation state installed by the constructor: empty history, position 0. -/
def initialNavState (url : String) : NavState :=
  { history := [], historyPosition := 0, urlInAddressBar := url }

/-- Iterated PUSH commits. -/
def pushAll (s : NavState) (urls : List String) : NavState :=
  urls.foldl (fun st u => commitUrl st u "PUSH" 0) s

theorem take_min (l : List String) (m : Nat) :
    l.take (min m l.length) = l.take m := by
  rcases Nat.le_total m l.length with h | h
  · rw [Nat.min_eq_left h]
  · rw [Nat.min_eq_right h, List.take_length, List.take_of_length_le h]

theorem drop_min (l : List String) (m : Nat) :
    l.drop (min m l.length) = l.drop m := by
  rcases Nat.le_total m l.length with h | h
  · rw [Nat.min_eq_left h]
  · rw [Nat.min_eq_right h, List.drop_length, List.drop_of_length_le h]

theorem jsSlice_zero_nonneg (l : List String) (k : Int) (hk : 0 ≤ k) :
    jsSlice l 0 k = l.take k.toNat := by
  unfold jsSlice jsSliceIndex
  rw [if_neg (by omega), if_neg (by omega)]
  simp only [Int.toNat_zero, Nat.zero_min, List.drop_zero]
  exact take_min l k.toNat

theorem jsSliceFrom_nonneg (l : List String) (k : Int) (hk : 0 ≤ k) :
    jsSliceFrom l k = l.drop k.toNat := by
  unfold jsSliceFrom jsSliceIndex
  rw [if_neg (by omega)]
  exact drop_min l k.toNat

theorem commitUrl_push_eq (s : NavState) (url : String) (d : Int)
    (h : 0 ≤ s.historyPosition) :
    commitUrl s url "PUSH" d
      = { history := s.history.take (s.historyPosition.toNat + 1) ++ [url],
          historyPosition := s.historyPosition + 1,
          urlInAddressBar := url } := by
  unfold commitUrl
  rw [if_neg (by decide), if_neg (by decide)]
  rw [jsSlice_zero_nonneg _ _ (by omega)]
  have : (s.historyPosition + 1).toNat = s.historyPosition.toNat + 1 := by omega
  rw [this]

theorem commitUrl_replace_eq (s : NavState) (url : String) (d : Int)
    (h0 : 0 ≤ s.historyPosition)
    (hlt : s.historyPosition < (s.history.length : Int)) :
    commitUrl s url "REPLACE" d
      = { s with
            history := s.history.set s.historyPosition.toNat url,
            urlInAddressBar := url } := by
  unfold commitUrl
  rw [if_neg (by decide), if_pos rfl]
  have hn : s.historyPosition.toNat < s.history.length := by omega
  rw [jsSlice_zero_nonneg _ _ h0, jsSliceFrom_nonneg _ _ (by omega)]
  have h1 : (s.historyPosition + 1).toNat = s.historyPosition.toNat + 1 := by omega
  rw [h1, List.set_eq_take_cons_drop _ hn]
  simp [List.append_assoc]

theorem pushAll_counts : ∀ (urls : List String) (s : NavState),
    0 ≤ s.historyPosition → s.history.length ≤ s.historyPosition.toNat + 1 →
    (pushAll s urls).historyPosition = s.historyPosition + urls.length
    ∧ (pushAll s urls).history.length = s.history.length + urls.length := by
  intro urls
  induction urls with
  | nil => intro s h0 hle; simp [pushAll]
  | cons u t ih =>
    intro s h0 hle
    have hpush : commitUrl s u "PUSH" 0
        = { history := s.history ++ [u],
            historyPosition := s.historyPosition + 1,
            urlInAddressBar := u } := by
      rw [commitUrl_push_eq s u 0 h0, List.take_of_length_le hle]
    have hstep : pushAll s (u :: t)
        = pushAll { history := s.history ++ [u],
                    historyPosition := s.historyPosition + 1,
                    urlInAddressBar := u } t := by
      show pushAll (commitUrl s u "PUSH" 0) t = _
      rw [hpush]
    have hrec := ih
      { history := s.history ++ [u],
        historyPosition := s.historyPosition + 1,
        urlInAddressBar := u }
      (by show 0 ≤ s.historyPosition + 1; omega)
      (by show (s.history ++ [u]).length ≤ (s.historyPosition + 1).toNat + 1
          simp only [List.length_append, List.length_cons, List.length_nil]
          omega)
    rw [hstep]
    rcases hrec with ⟨hp, hl⟩
    constructor
    · rw [hp]
      show s.historyPosition + 1 + (t.length : Int)
        = s.historyPosition + ((t.length + 1 : Nat) : Int)
      push_cast
      ring
    · rw [hl]
      show (s.history ++ [u]).length + t.length = s.history.length + (t.length + 1)
      simp only [List.length_append, List.length_cons, List.length_nil]
      omega

/-- Counterexample to C4 as stated: a single PUSH from a freshly reset
history (one entry, position 0) yields position 1 and 2 entries, not
position 0 and 1 entry as "position = N-1, entries.length = N" requires. -/
theorem push_count_counterexample :
    ¬((pushAll (handleRefresh (initialNavState "u")) ["x"]).historyPosition = 0
      ∧ (pushAll (handleRefresh (initialNavState "u")) ["x"]).history.length = 1) := by
  decide

/-- C4 (amended): committing PUSH truncates the entries after the current
position, appends the url and advances the position by 1; consequently N
sequential pushes end at position N (not N-1), with N entries when starting
from the constructor's empty history and N+1 entries when starting from a
freshly refreshed single-entry history. -/
theorem commitUrl_push_spec :
    (∀ (s : NavState) (url : String) (d : Int), 0 ≤ s.historyPosition →
      commitUrl s url "PUSH" d
        = { history := s.history.take (s.historyPosition.toNat + 1) ++ [url],
            historyPosition := s.historyPosition + 1,
            urlInAddressBar := url })
    ∧ (∀ (u : String) (urls : List String),
        (pushAll (initialNavState u) urls).historyPosition = urls.length
        ∧ (pushAll (initialNavState u) urls).history.length = urls.length)
    ∧ (∀ (s : NavState) (urls : List String),
        (pushAll (handleRefresh s) urls).historyPosition = urls.length
        ∧ (pushAll (handleRefresh s) urls).history.length = urls.length + 1) := by
  refine ⟨commitUrl_push_eq, ?_, ?_⟩
  · intro u urls
    have h := pushAll_counts urls (initialNavState u)
      (by show (0 : Int) ≤ 0; exact le_refl 0)
      (by show ([] : List String).length ≤ (0 : Int).toNat + 1; simp)
    constructor
    · rw [h.1]
      show (0 : Int) + urls.length = urls.length
      ring
    · rw [h.2]
      show ([] : List String).length + urls.length = urls.length
      simp
  · intro s urls
    have h := pushAll_counts urls (handleRefresh s)
      (by show (0 : Int) ≤ 0; exact le_refl 0)
      (by show [refreshUrl s].length ≤ (0 : Int).toNat + 1; simp)
    constructor
    · rw [h.1]
      show (0 : Int) + urls.length = urls.length
      ring
    · rw [h.2]
      show [refreshUrl s].length + urls.length = urls.length + 1
      simp [Nat.add_comm]

/-- Witness instantiating the amended C4's PUSH equation at a concrete
in-range state. -/
theorem commitUrl_push_spec_witness :
    (0 : Int) ≤ (⟨["a", "b"], 1, "b"⟩ : NavState).historyPosition
    ∧ commitUrl ⟨["a", "b"], 1, "b"⟩ "x" "PUSH" 0
      = (⟨["a", "b", "x"], 2, "x"⟩ : NavState) := by
  refine ⟨by decide, ?_⟩
  rw [commitUrl_push_spec.1 _ "x" 0 (by decide)]
  decide

/-- Counterexample to C5 as stated: REPLACE on a state with an empty entries
sequence grows the entries from length 0 to length 1. -/
theorem replace_length_counterexample :
    ¬((commitUrl ⟨[], 0, "u"⟩ "x" "REPLACE" 0).history.length = 0) := by
  decide

/-- C5 (amended): committing REPLACE never changes the position and stores
the url in the address bar; with the position in range it overwrites
`entries[position]` in place (so the length is preserved); from an empty
entries sequence it instead appends, yielding the one-entry sequence. -/
theorem commitUrl_replace_spec :
    ∀ (s : NavState) (url : String) (d : Int),
      (commitUrl s url "REPLACE" d).historyPosition = s.historyPosition
      ∧ (commitUrl s url "REPLACE" d).urlInAddressBar = url
      ∧ (0 ≤ s.historyPosition → s.historyPosition < (s.history.length : Int) →
          (commitUrl s url "REPLACE" d).history
            = s.history.set s.historyPosition.toNat url)
      ∧ (s.history = [] → (commitUrl s url "REPLACE" d).history = [url]) := by
  intro s url d
  refine ⟨?_, ?_, ?_, ?_⟩
  · unfold commitUrl
    rw [if_neg (by decide), if_pos rfl]
  · unfold commitUrl
    rw [if_neg (by decide), if_pos rfl]
  · intro h0 hlt
    rw [commitUrl_replace_eq s url d h0 hlt]
  · intro hnil
    unfold commitUrl
    rw [if_neg (by decide), if_pos rfl]
    show jsSlice s.history 0 s.historyPosition ++ [url]
        ++ jsSliceFrom s.history (s.historyPosition + 1) = [url]
    simp [jsSlice, jsSliceFrom, hnil]

/-- Witness instantiating the amended C5 at a concrete in-range state. -/
theorem commitUrl_replace_spec_witness :
    ((0 : Int) ≤ 1 ∧ (1 : Int) < ((["a", "b"] : List String).length : Int))
    ∧ (commitUrl ⟨["a", "b"], 1, "b"⟩ "x" "REPLACE" 0).history = ["a", "x"] := by
  refine ⟨⟨by decide, by decide⟩, ?_⟩
  rw [(commitUrl_replace_spec ⟨["a", "b"], 1, "b"⟩ "x" 0).2.2.1
    (by decide) (by decide)]
  decide

/-- C6: committing POP adds the (possibly negative) delta to the position,
stores the carried url as the address-bar value and leaves the entries
sequence entirely unchanged; in particular POP with delta -2 from position 3
yields position 1. -/
theorem commitUrl_pop_spec :
    (∀ (s : NavState) (url : String) (d : Int),
      (commitUrl s url "POP" d).historyPosition = s.historyPosition + d
      ∧ (commitUrl s url "POP" d).history = s.history
      ∧ (commitUrl s url "POP" d).urlInAddressBar = url)
    ∧ (commitUrl ⟨["a", "b", "c", "d"], 3, "d"⟩ "b" "POP" (-2)).historyPosition
      = 1 := by
  constructor
  · intro s url d
    refine ⟨?_, ?_, ?_⟩ <;> (unfold commitUrl; rw [if_pos rfl])
  · decide

/-- Navigation transitions that commit a state update: PUSH, REPLACE and a
full refresh. -/
inductive NavCmd where
  | push : String → NavCmd
  | replace : String → NavCmd
  | refresh : NavCmd

/-- One committed navigation transition. -/
def applyNavCmd (s : NavState) : NavCmd → NavState
  | NavCmd.push url => commitUrl s url "PUSH" 0
  | NavCmd.replace url => commitUrl s url "REPLACE" 0
  | NavCmd.refresh => handleRefresh s

/-- A sequence of committed navigation transitions. -/
def runNavCmds (s : NavState) (cs : List NavCmd) : NavState :=
  cs.foldl applyNavCmd s

/-- The invariant claimed by the spec for the navigation state. -/
def NavInv (s : NavState) : Prop :=
  0 ≤ s.historyPosition ∧ s.historyPosition < (s.history.length : Int)
    ∧ jsGetElem s.history s.historyPosition = some s.urlInAddressBar

theorem navInv_handleRefresh (s : NavState) : NavInv (handleRefresh s) := by
  refine ⟨le_refl 0, ?_, ?_⟩
  · show (0 : Int) < (([refreshUrl s] : List String).length : Int)
    simp
  · show jsGetElem [refreshUrl s] 0 = some (refreshUrl s)
    simp [jsGetElem]

theorem navInv_push (s : NavState) (url : String) (h : NavInv s) :
    NavInv (commitUrl s url "PUSH" 0) := by
  obtain ⟨h0, hlt, _⟩ := h
  rw [commitUrl_push_eq s url 0 h0]
  have hn : s.historyPosition.toNat + 1 ≤ s.history.length := by omega
  have hl1 : (s.history.take (s.historyPosition.toNat + 1)).length
      = s.historyPosition.toNat + 1 := by
    simp only [List.length_take]
    omega
  refine ⟨?_, ?_, ?_⟩
  · show (0 : Int) ≤ s.historyPosition + 1
    omega
  · show s.historyPosition + 1
        < ((s.history.take (s.historyPosition.toNat + 1) ++ [url]).length : Int)
    rw [List.length_append, hl1]
    show s.historyPosition + 1
        < ((s.historyPosition.toNat + 1 + 1 : Nat) : Int)
    omega
  · show jsGetElem (s.history.take (s.historyPosition.toNat + 1) ++ [url])
        (s.historyPosition + 1) = some url
    unfold jsGetElem
    rw [if_neg (by omega)]
    have ht : (s.historyPosition + 1).toNat = s.historyPosition.toNat + 1 := by
      omega
    rw [ht, List.getElem?_append_right hl1.le, hl1]
    simp

theorem navInv_replace (s : NavState) (url : String) (h : NavInv s) :
    NavInv (commitUrl s url "REPLACE" 0) := by
  obtain ⟨h0, hlt, _⟩ := h
  rw [commitUrl_replace_eq s url 0 h0 hlt]
  have hn : s.historyPosition.toNat < s.history.length := by omega
  refine ⟨h0, ?_, ?_⟩
  · show s.historyPosition
        < ((s.history.set s.historyPosition.toNat url).length : Int)
    rw [List.length_set]
    exact hlt
  · show jsGetElem (s.history.set s.historyPosition.toNat url)
        s.historyPosition = some url
    unfold jsGetElem
    rw [if_neg (by omega)]
    rw [List.getElem?_set_self hn]

/-- Counterexample to C7 as stated: the state reached by a single PUSH from
the constructor's initial state (empty history, position 0) has non-empty
entries but position 1 = entries.length, violating position <
entries.length. -/
theorem navigation_invariant_counterexample :
    (commitUrl (initialNavState "u") "x" "PUSH" 0).history ≠ []
    ∧ ¬((commitUrl (initialNavState "u") "x" "PUSH" 0).historyPosition
        < ((commitUrl (initialNavState "u") "x" "PUSH" 0).history.length : Int)) := by
  decide

/-- C7 (amended): every state reached from a freshly refreshed state by any
sequence of committed PUSH, REPLACE and refresh transitions satisfies
0 ≤ position < entries.length, with the address bar mirroring
entries[position]; the unclamped POP transition and the constructor's
pre-refresh empty state are excluded, as the counterexample and POP's
unconditional position arithmetic break the bound. -/
theorem navigation_invariant_spec (s : NavState) (cs : List NavCmd) :
    NavInv (runNavCmds (handleRefresh s) cs) := by
  have main : ∀ (cs₂ : List NavCmd) (s' : NavState),
      NavInv s' → NavInv (runNavCmds s' cs₂) := by
    intro cs₂
    induction cs₂ with
    | nil => intro s' h; exact h
    | cons c t ih =>
      intro s' h
      show NavInv (runNavCmds (applyNavCmd s' c) t)
      apply ih
      cases c with
      | push url => exact navInv_push s' url h
      | replace url => exact navInv_replace s' url h
      | refresh => exact navInv_handleRefresh s'
  exact main cs (handleRefresh s) (navInv_handleRefresh s)

/-! Server-mode execution requests and the socket message route. -/

/-- Embedding of the server branch of `executeCodeImmediately` (source lines
644-655) as one request step: the first component is the new last-sent
baseline (replaced by the current snapshot exactly when the container status
is "sandbox-started"), the second the emitted sandbox:update payload (the
diff, only when it has at least one key and a socket exists). -/
def executeServerUpdate (lastSentModules modulesToSend : IModulesByPath)
    (containerStatus : Option String) (hasSocket : Bool) :
    IModulesByPath × Option IModulesByPath :=
  ((if containerStatus = some "sandbox-started" then modulesToSend
    else lastSentModules),
   (if 0 < (keys (getDiff lastSentModules modulesToSend)).length
        ∧ hasSocket = true
    then some (getDiff lastSentModules modulesToSend) else none))

/-- C8: a server-mode execution request emits a sandbox:update message only
when the diff against the last-sent baseline is non-empty (and does emit
exactly that diff when it is non-empty and a socket is open), and the
baseline is replaced by the current snapshot exactly when the container
status is "sandbox-started" at the moment of the request. -/
theorem executeServerUpdate_spec
    (lastSent current : IModulesByPath) (st : Option String) (sock : Bool) :
    ((executeServerUpdate lastSent current st sock).2 ≠ none →
      getDiff lastSent current ≠ [])
    ∧ (∀ d, (executeServerUpdate lastSent current st sock).2 = some d →
        d = getDiff lastSent current)
    ∧ (getDiff lastSent current ≠ [] → sock = true →
        (executeServerUpdate lastSent current st sock).2
          = some (getDiff lastSent current))
    ∧ (st = some "sandbox-started" →
        (executeServerUpdate lastSent current st sock).1 = current)
    ∧ (st ≠ some "sandbox-started" →
        (executeServerUpdate lastSent current st sock).1 = lastSent) := by
  refine ⟨?_, ?_, ?_, ?_, ?_⟩
  · intro h hdiff
    apply h
    show (if 0 < (keys (getDiff lastSent current)).length ∧ sock = true
        then some (getDiff lastSent current) else none) = none
    rw [hdiff]
    simp [keys]
  · intro d hd
    have hd' : (if 0 < (keys (getDiff lastSent current)).length ∧ sock = true
        then some (getDiff lastSent current) else none) = some d := hd
    split_ifs at hd' with hcond
    exact (Option.some.inj hd').symm
  · intro hne hsock
    have hlen : 0 < (keys (getDiff lastSent current)).length := by
      cases hgd : getDiff lastSent current with
      | nil => exact absurd hgd hne
      | cons x t => simp [keys]
    show (if 0 < (keys (getDiff lastSent current)).length ∧ sock = true
        then some (getDiff lastSent current) else none)
      = some (getDiff lastSent current)
    rw [if_pos ⟨hlen, hsock⟩]
  · intro h
    show (if st = some "sandbox-started" then current else lastSent) = current
    rw [if_pos h]
  · intro h
    show (if st = some "sandbox-started" then current else lastSent) = lastSent
    rw [if_neg h]

/-- Witness instantiating C8 on a concrete non-empty diff with an open
socket and a started container. -/
theorem executeServerUpdate_spec_witness :
    (getDiff ([] : IModulesByPath) snapA ≠ []
      ∧ (some "sandbox-started" : Option String) = some "sandbox-started")
    ∧ (executeServerUpdate [] snapA (some "sandbox-started") true).2
        = some (getDiff [] snapA)
    ∧ (executeServerUpdate [] snapA (some "sandbox-started") true).1 = snapA := by
  refine ⟨⟨by decide, rfl⟩, ?_, ?_⟩
  · exact (executeServerUpdate_spec [] snapA (some "sandbox-started") true).2.2.1
      (by decide) rfl
  · exact (executeServerUpdate_spec [] snapA (some "sandbox-started") true).2.2.2.1
      rfl

/-- Observable effects of the message router relevant to claim C9. The
error-report effect is included in the type so that its absence is
expressible. -/
inductive HostEffect where
  | socketEmit : String → HostEffect
  | errorReport : HostEffect
deriving DecidableEq

/-- Embedding of the `socket:message` case of `handleMessage` (source lines
559-566): when a socket exists the nested channel payload is re-emitted on
it; otherwise the branch does nothing. -/
def handleSocketMessage (hasSocket : Bool) (channel : String) :
    List HostEffect :=
  if hasSocket then [HostEffect.socketEmit channel] else []

/-- Counterexample to C9 as stated: with no socket open, the socket:message
route performs no effect at all — in particular no error condition is
reported to the caller. -/
theorem socket_send_error_counterexample :
    HostEffect.errorReport ∉ handleSocketMessage false "channelName" := by
  decide

/-- C9 (amended): an outbound send attempted while the socket channel is not
open is silently dropped rather than reported: the socket:message route
performs no effect whatsoever, and a server execution request emits nothing;
both branches are guarded no-ops, so no exception escapes into the dispatch
loop. -/
theorem socket_send_silent_drop (channel : String)
    (lastSent current : IModulesByPath) (st : Option String) :
    handleSocketMessage false channel = []
    ∧ (executeServerUpdate lastSent current st false).2 = none := by
  constructor
  · rfl
  · show (if 0 < (keys (getDiff lastSent current)).length ∧ false = true
        then some (getDiff lastSent current) else none) = none
    rw [if_neg (by simp)]

/-! Snapshot construction (`getModulesToSend`). -/

/-- Sandbox module as consumed by `getModulesToSend`: an id resolved to a
path by the external path resolver, plus code and binary flag. -/
structure SandboxModule where
  id : String
  code : Option String
  isBinary : Option Bool
deriving DecidableEq

/-- Embedding of the module-collection loop of `getModulesToSend` (source
lines 597-606): each sandbox module whose resolved path is truthy (neither
null nor the empty string) is assigned into the accumulator object. -/
def buildModulesObject (resolvePath : String → Option String)
    (mods : List SandboxModule) : IModulesByPath :=
  mods.foldl (fun acc m =>
    match resolvePath m.id with
    | some path =>
        if path = "" then acc
        else objSet acc path (ModuleEntry.mk m.code m.isBinary)
    | none => acc) []

/-- JS object spread `{...a, ...b}`: keys of `a` in insertion order with
values overridden by `b` where present, then the keys of `b` new to `a`. -/
def jsSpread (a b : IModulesByPath) : IModulesByPath :=
  (a.map fun pe => (pe.1, (find b pe.1).getD pe.2))
    ++ b.filter fun pe => (find a pe.1).isNone

/-- Embedding of `getModulesToSend` (source lines 593-620): spread
`extraModules` then the sandbox modules object, then add a synthetic
`/package.json` entry when that key is absent. -/
def getModulesToSend (resolvePath : String → Option String)
    (mods : List SandboxModule) (extraModules : IModulesByPath)
    (packageJsonCode : String) : IModulesByPath :=
  let modulesToSend := jsSpread extraModules (buildModulesObject resolvePath mods)
  if (find modulesToSend "/package.json").isSome then modulesToSend
  else objSet modulesToSend "/package.json"
    (ModuleEntry.mk (some packageJsonCode) (some false))

theorem find_jsSpread (a b : IModulesByPath) (p : String) :
    find (jsSpread a b) p = match find b p with
      | some e => some e
      | none => find a p := by
  unfold jsSpread
  rw [find_append]
  have hmap : find (a.map fun pe => (pe.1, (find b pe.1).getD pe.2)) p
      = (find a p).map fun e => (find b p).getD e :=
    find_map_entry a (fun q e => (find b q).getD e) p
  rw [hmap]
  cases hfa : find a p with
  | some ea =>
    cases hfb : find b p with
    | some eb => simp [hfb]
    | none => simp [hfb]
  | none =>
    rw [find_filter_of_true (fun e => by simp [hfa])]
    cases hfb : find b p with
    | some eb => simp [hfb]
    | none => simp [hfb, hfa]

theorem buildModulesObject_filter (r : String → Option String)
    (mods : List SandboxModule) :
    buildModulesObject r mods
      = buildModulesObject r (mods.filter fun m =>
          match r m.id with
          | some path => decide (path ≠ "")
          | none => false) := by
  unfold buildModulesObject
  have h : ∀ (ms : List SandboxModule) (acc : IModulesByPath),
      ms.foldl (fun acc m =>
        match r m.id with
        | some path =>
            if path = "" then acc
            else objSet acc path (ModuleEntry.mk m.code m.isBinary)
        | none => acc) acc
      = (ms.filter fun m =>
          match r m.id with
          | some path => decide (path ≠ "")
          | none => false).foldl (fun acc m =>
        match r m.id with
        | some path =>
            if path = "" then acc
            else objSet acc path (ModuleEntry.mk m.code m.isBinary)
        | none => acc) acc := by
    intro ms
    induction ms with
    | nil => intro acc; rfl
    | cons m t ih =>
      intro acc
      cases hr : r m.id with
      | none => simp [List.filter_cons, List.foldl_cons, hr, ih]
      | some path =>
        by_cases hp : path = ""
        · simp [List.filter_cons, List.foldl_cons, hr, hp, ih]
        · simp [List.filter_cons, List.foldl_cons, hr, hp, ih]
  exact h mods []

/-- C10: in the snapshot built by `getModulesToSend`, an entry of the
resolved sandbox modules object overrides any `extraModules` entry at the
same path, and sandbox modules whose path fails to resolve (or resolves to
an empty string) are silently omitted: dropping them beforehand leaves the
snapshot unchanged. -/
theorem getModulesToSend_spec :
    (∀ (r : String → Option String) (mods : List SandboxModule)
        (extra : IModulesByPath) (pj p : String) (e : ModuleEntry),
      (find extra p).isSome →
      find (buildModulesObject r mods) p = some e →
      find (getModulesToSend r mods extra pj) p = some e)
    ∧ (∀ (r : String → Option String) (mods : List SandboxModule)
        (extra : IModulesByPath) (pj : String),
      getModulesToSend r mods extra pj
        = getModulesToSend r (mods.filter fun m =>
            match r m.id with
            | some path => decide (path ≠ "")
            | none => false) extra pj) := by
  constructor
  · intro r mods extra pj p e «_» hmo
    have hsp : find (jsSpread extra (buildModulesObject r mods)) p = some e := by
      rw [find_jsSpread, hmo]
    simp only [getModulesToSend]
    by_cases hpj : (find (jsSpread extra (buildModulesObject r mods))
        "/package.json").isSome
    · rw [if_pos hpj]
      exact hsp
    · rw [if_neg hpj]
      by_cases hp : p = "/package.json"
      · subst hp
        rw [hsp] at hpj
        simp at hpj
      · rw [find_objSet_ne _ _ _ _ hp]
        exact hsp
  · intro r mods extra pj
    simp only [getModulesToSend]
    rw [← buildModulesObject_filter r mods]

/-- Concrete resolver for the C10 witness: module "m1" resolves to "/a.js". -/
def exResolver : String → Option String := fun i =>
  if i = "m1" then some "/a.js" else none

/-- Concrete sandbox module list for the C10 witness. -/
def exMods : List SandboxModule :=
  [SandboxModule.mk "m1" (some "sandbox-code") (some false)]

/-- Concrete extraModules map for the C10 witness, clashing on "/a.js". -/
def exExtra : IModulesByPath :=
  [("/a.js", ModuleEntry.mk (some "extra-code") none)]

/-- Witness instantiating C10's override property at the clashing path. -/
theorem getModulesToSend_spec_witness :
    ((find exExtra "/a.js").isSome
      ∧ find (buildModulesObject exResolver exMods) "/a.js"
          = some (ModuleEntry.mk (some "sandbox-code") (some false)))
    ∧ find (getModulesToSend exResolver exMods exExtra "PJ") "/a.js"
        = some (ModuleEntry.mk (some "sandbox-code") (some false)) := by
  refine ⟨⟨by decide, by decide⟩, ?_⟩
  exact getModulesToSend_spec.1 exResolver exMods exExtra "PJ" "/a.js"
    (ModuleEntry.mk (some "sandbox-code") (some false)) (by decide) (by decide)

end Preview


